import Mathlib

/-!
# Verification of the `buffer-io` binary stream codec

This file gives a shallow embedding, in Lean, of the Rust crate `buffer-io`
(`src/lib.rs`): a pair of cursor-based wrappers (`BufferWriter`, `BufferReader`)
around a seekable byte medium, providing typed little-endian encode/decode
operations, a 7-bit variable-length integer codec, and length-prefixed UTF-8
strings.

Modelling choices, all taken from the source:

* The underlying medium is modelled as `std::io::Cursor<Vec<u8>>`, the medium
  the crate's own test uses (and the "memory buffer" of the spec).  A cursor is
  a byte list together with a `u64` position (`ByteStream` below).  The
  semantics of its `seek` / `read_exact` / `write` primitives are translated
  from the Rust standard library: `SeekFrom::Start` always succeeds and may
  place the position past the end; `SeekFrom::Current` / `SeekFrom::End` fail
  when the checked signed addition leaves `[0, 2^64)`; `write` splices into the
  backing vector at the position (zero-padding any gap) and never fails;
  `read_exact` fails when fewer bytes than requested remain.
* Machine integers are `Nat` / `Int` with explicit reductions `% 2^w` at the
  places the Rust code performs casts or fixed-width arithmetic (`as u8`,
  `as u32`, `as i32`, `as u64`, wrapping `u64` addition in bounds checks,
  wrapping `i32` shifts in the varint decoder).
* Rust `String` values are represented by their UTF-8 byte lists (a Rust
  `String` is exactly a `Vec<u8>` that is valid UTF-8; `String::from_utf8`
  returns the very same bytes).  `utf8Valid` below is the UTF-8 validation
  automaton that `String::from_utf8` applies.
* Every fallible method `fn f(&mut self, ...) -> Result<A, BufferError>` is a
  function `ByteStream → Except BufferError A × ByteStream`: the error value is
  returned together with the (possibly mutated) stream state, exactly as the
  Rust `&mut self` receiver survives an `Err` return.
-/

namespace BufferLib

/-- The state of a `std::io::Cursor<Vec<u8>>`: the backing byte vector and the
`u64` cursor position.  Bytes are `Nat`s below `256`; the position is a `Nat`
below `2^64` (both maintained by the operations, assumed as hypotheses where
needed). -/
structure ByteStream where
  data : List Nat
  pos : Nat
deriving DecidableEq, Repr

/-- `SeekOrigin` from the source: the reference point of a seek. -/
inductive SeekOrigin where
  | Begin
  | Current
  | End
deriving DecidableEq, Repr

/-- `BufferError` from the source.  `ReadFailure` carries an `std::io::Error`
in Rust; the payload is irrelevant to every claim and is dropped here. -/
inductive BufferError where
  | IndexOutOfRange (index : Int)
  | EndOfStream
  | ReadFailure
  | IOFailure
deriving DecidableEq, Repr

/-- Rust cast `i64 → u64` (`position as u64`): two's-complement
reinterpretation, i.e. reduction modulo `2^64` (the literal is `2^64`). -/
def toU64 (i : Int) : Nat := (i % (18446744073709551616 : Int)).toNat

/-- Rust cast `u64 → i64` (`old_pos as i64`): two's-complement reinterpretation
(the literals are `2^64`, `2^63`). -/
def toI64 (n : Nat) : Int :=
  if n % 18446744073709551616 < 9223372036854775808 then ((n % 18446744073709551616 : Nat) : Int)
  else ((n % 18446744073709551616 : Nat) : Int) - (18446744073709551616 : Int)

/-- Rust cast to `u32` of a signed value (`value as u32`): reduction modulo
`2^32` (the literal is `2^32`). -/
def toU32 (i : Int) : Nat := (i % (4294967296 : Int)).toNat

/-- Interpretation of a 32-bit pattern as an `i32` (also the Rust cast
`usize → i32`, which truncates to 32 bits and reinterprets; the literals are
`2^32`, `2^31`). -/
def toI32 (n : Nat) : Int :=
  if n % 4294967296 < 2147483648 then ((n % 4294967296 : Nat) : Int)
  else ((n % 4294967296 : Nat) : Int) - (4294967296 : Int)

/-- `u64::checked_add_signed`, used by `Cursor::seek` for `Current`/`End`:
`none` when the exact sum `base + off` leaves `[0, 2^64)`, written out on the
two `Int` constructors of the signed offset. -/
def checkedAddSigned (base : Nat) (off : Int) : Option Nat :=
  match off with
  | .ofNat k => if base + k < 2 ^ 64 then some (base + k) else none
  | .negSucc k => if k + 1 ≤ base then some (base - (k + 1)) else none

/-- `<Cursor as Seek>::seek`, already composed with the wrapper's translation
of `SeekOrigin` to `SeekFrom` (`Begin ↦ Start(position as u64)`,
`Current ↦ Current(position)`, `End ↦ End(position)`).  `Start` always
succeeds; `Current`/`End` use checked signed addition. -/
def cursorSeek (s : ByteStream) (position : Int) (origin : SeekOrigin) : Option (Nat × ByteStream) :=
  match origin with
  | .Begin => some (toU64 position, ⟨s.data, toU64 position⟩)
  | .Current =>
    match checkedAddSigned s.pos position with
    | some n => some (n, ⟨s.data, n⟩)
    | none => none
  | .End =>
    match checkedAddSigned s.data.length position with
    | some n => some (n, ⟨s.data, n⟩)
    | none => none

/-- `<Cursor<Vec<u8>> as Write>::write` (std `vec_write`): zero-pad up to the
position if it is past the end, splice the bytes in, advance the position.
Never fails for a vector-backed cursor. -/
def cursorWrite (s : ByteStream) (bs : List Nat) : ByteStream :=
  let d := if s.data.length < s.pos then s.data ++ List.replicate (s.pos - s.data.length) 0 else s.data
  ⟨d.take s.pos ++ bs ++ d.drop (s.pos + bs.length), (s.pos + bs.length) % 2 ^ 64⟩

/-- `<Cursor as Read>::read_exact`: reads from `min pos len`; fails (without
moving the cursor) when fewer than `n` bytes remain. -/
def cursorReadExact (s : ByteStream) (n : Nat) : Option (List Nat × ByteStream) :=
  let start := min s.pos s.data.length
  if n ≤ s.data.length - start then
    some (((s.data.drop start).take n), ⟨s.data, (s.pos + n) % 2 ^ 64⟩)
  else none

/-- Sequencing of two fallible stateful operations: Rust's `?` operator on
`Result` with the `&mut self` state threaded through. -/
def bnd {α β : Type} (x : Except BufferError α × ByteStream)
    (f : α → ByteStream → Except BufferError β × ByteStream) : Except BufferError β × ByteStream :=
  match x with
  | (.ok a, s) => f a s
  | (.error e, s) => (.error e, s)

namespace BufferWriter

/-- `BufferWriter::seek`. -/
def seek (position : Int) (origin : SeekOrigin) (s : ByteStream) : Except BufferError Nat × ByteStream :=
  match cursorSeek s position origin with
  | some (n, s1) => (.ok n, s1)
  | none => (.error (.IndexOutOfRange position), s)

/-- `BufferWriter::position`. -/
def position (s : ByteStream) : Except BufferError Nat × ByteStream :=
  seek 0 .Current s

/-- `BufferWriter::len`. -/
def len (s : ByteStream) : Except BufferError Nat × ByteStream :=
  bnd (position s) fun old_pos s =>
  bnd (seek 0 .End s) fun l s =>
  if old_pos ≠ l then
    bnd (seek (toI64 old_pos) .Begin s) fun _ s => (.ok l, s)
  else (.ok l, s)

/-- `BufferWriter::to_vec`: seek to the start, then `read_to_end` (which for a
cursor returns every byte from `min pos len` to the end and leaves the cursor
at the end). -/
def to_vec (s : ByteStream) : Except BufferError (List Nat) × ByteStream :=
  bnd (seek 0 .Begin s) fun _ s =>
  (.ok (s.data.drop (min s.pos s.data.length)), ⟨s.data, s.data.length⟩)

/-- The byte `(value >> k) as u8`. -/
def byteOf (value : Nat) (k : Nat) : Nat := (value >>> k) % 256

/-- `BufferWriter::write_u8` (the `as u8` casts happen at the call sites, as in
the source; a cursor-backed write never fails and reports one byte written). -/
def write_u8 (value : Nat) (s : ByteStream) : Except BufferError Nat × ByteStream :=
  (.ok 1, cursorWrite s [value])

/-- `BufferWriter::write_u16`: little-endian, two bytes. -/
def write_u16 (value : Nat) (s : ByteStream) : Except BufferError Nat × ByteStream :=
  (.ok 2, cursorWrite s [byteOf value 0, byteOf value 8])

/-- `BufferWriter::write_u32`: little-endian, four bytes. -/
def write_u32 (value : Nat) (s : ByteStream) : Except BufferError Nat × ByteStream :=
  (.ok 4, cursorWrite s [byteOf value 0, byteOf value 8, byteOf value 16, byteOf value 24])

/-- `BufferWriter::write_u64`: little-endian, eight bytes. -/
def write_u64 (value : Nat) (s : ByteStream) : Except BufferError Nat × ByteStream :=
  (.ok 8, cursorWrite s
    [byteOf value 0, byteOf value 8, byteOf value 16, byteOf value 24,
     byteOf value 32, byteOf value 40, byteOf value 48, byteOf value 56])

/-- `BufferWriter::write_i32`: little-endian, four bytes.  The Rust code
extracts bytes with arithmetic shifts on `i32` followed by `as u8`; on the
two's-complement pattern `toU32 value` this is byte extraction with logical
shifts, because `as u8` keeps only the low 8 bits and for shifts of 0/8/16/24
those bits of the arithmetic-shift result coincide with bits of the pattern. -/
def write_i32 (value : Int) (s : ByteStream) : Except BufferError Nat × ByteStream :=
  (.ok 4, cursorWrite s
    [byteOf (toU32 value) 0, byteOf (toU32 value) 8, byteOf (toU32 value) 16, byteOf (toU32 value) 24])

/-- The loop of `BufferWriter::write_7bit_int` on the `u32` value `v`:
while `v >= 0x80` emit `(v | 0x80) as u8` and shift right by 7, then emit
`v as u8`. -/
def write7bitLoop (v : Nat) (s : ByteStream) : Except BufferError PUnit × ByteStream :=
  if h : 0x80 ≤ v then
    bnd (write_u8 ((v ||| 0x80) % 256) s) fun _ s => write7bitLoop (v >>> 7) s
  else
    bnd (write_u8 (v % 256) s) fun _ s => (.ok ⟨⟩, s)
termination_by v
decreasing_by
  simp only [Nat.shiftRight_eq_div_pow]
  omega

/-- `BufferWriter::write_7bit_int`: the signed argument is reinterpreted as
`u32` (`value as u32`) and emitted 7 bits at a time. -/
def write_7bit_int (value : Int) (s : ByteStream) : Except BufferError PUnit × ByteStream :=
  write7bitLoop (toU32 value) s

/-- `BufferWriter::write_string`: the UTF-8 byte length is cast `usize → i32`
(`bytes.len() as i32`) and written with the varint codec, then the bytes are
written verbatim. -/
def write_string (value : List Nat) (s : ByteStream) : Except BufferError Nat × ByteStream :=
  bnd (write_7bit_int (toI32 value.length) s) fun _ s =>
  (.ok value.length, cursorWrite s value)

/-- `BufferWriter::write_bytes`. -/
def write_bytes (value : List Nat) (s : ByteStream) : Except BufferError Nat × ByteStream :=
  (.ok value.length, cursorWrite s value)

end BufferWriter

namespace BufferReader

/-- `BufferReader::seek` (same body as the writer's, on the read side). -/
def seek (position : Int) (origin : SeekOrigin) (s : ByteStream) : Except BufferError Nat × ByteStream :=
  match cursorSeek s position origin with
  | some (n, s1) => (.ok n, s1)
  | none => (.error (.IndexOutOfRange position), s)

/-- `BufferReader::position`. -/
def position (s : ByteStream) : Except BufferError Nat × ByteStream :=
  seek 0 .Current s

/-- `BufferReader::len`. -/
def len (s : ByteStream) : Except BufferError Nat × ByteStream :=
  bnd (position s) fun old_pos s =>
  bnd (seek 0 .End s) fun l s =>
  if old_pos ≠ l then
    bnd (seek (toI64 old_pos) .Begin s) fun _ s => (.ok l, s)
  else (.ok l, s)

/-- `BufferReader::read_u8`: bounds check `position + 1 > len` (wrapping `u64`
addition), then one byte via `read_exact`. -/
def read_u8 (s : ByteStream) : Except BufferError Nat × ByteStream :=
  bnd (position s) fun p s =>
  bnd (len s) fun l s =>
  if l < (p + 1) % 2 ^ 64 then (.error .EndOfStream, s)
  else
    match cursorReadExact s 1 with
    | some (buffer, s1) => (.ok (buffer.getD 0 0), s1)
    | none => (.error .ReadFailure, s)

/-- `BufferReader::read_u16`.  NOTE (faithful to the source): the second byte
is **not** shifted left by 8; the result is `buffer[0] | buffer[1]`. -/
def read_u16 (s : ByteStream) : Except BufferError Nat × ByteStream :=
  bnd (position s) fun p s =>
  bnd (len s) fun l s =>
  if l < (p + 2) % 2 ^ 64 then (.error .EndOfStream, s)
  else
    match cursorReadExact s 2 with
    | some (buffer, s1) => (.ok (buffer.getD 0 0 ||| buffer.getD 1 0), s1)
    | none => (.error .ReadFailure, s)

/-- `BufferReader::read_u32`: little-endian reassembly of four bytes. -/
def read_u32 (s : ByteStream) : Except BufferError Nat × ByteStream :=
  bnd (position s) fun p s =>
  bnd (len s) fun l s =>
  if l < (p + 4) % 2 ^ 64 then (.error .EndOfStream, s)
  else
    match cursorReadExact s 4 with
    | some (buffer, s1) =>
      (.ok ((buffer.getD 0 0 <<< 0 ||| buffer.getD 1 0 <<< 8) ||| buffer.getD 2 0 <<< 16 ||| buffer.getD 3 0 <<< 24), s1)
    | none => (.error .ReadFailure, s)

/-- `BufferReader::read_u64`: two little-endian 32-bit halves, `hi << 32 | lo`. -/
def read_u64 (s : ByteStream) : Except BufferError Nat × ByteStream :=
  bnd (position s) fun p s =>
  bnd (len s) fun l s =>
  if l < (p + 8) % 2 ^ 64 then (.error .EndOfStream, s)
  else
    match cursorReadExact s 8 with
    | some (buffer, s1) =>
      let lo := (buffer.getD 0 0 ||| buffer.getD 1 0 <<< 8) ||| buffer.getD 2 0 <<< 16 ||| buffer.getD 3 0 <<< 24
      let hi := (buffer.getD 4 0 ||| buffer.getD 5 0 <<< 8) ||| buffer.getD 6 0 <<< 16 ||| buffer.getD 7 0 <<< 24
      (.ok (hi <<< 32 ||| lo), s1)
    | none => (.error .ReadFailure, s)

/-- `BufferReader::read_i32`: the same little-endian reassembly performed on
`i32`; the resulting 32-bit pattern is interpreted as a signed value. -/
def read_i32 (s : ByteStream) : Except BufferError Int × ByteStream :=
  bnd (position s) fun p s =>
  bnd (len s) fun l s =>
  if l < (p + 4) % 2 ^ 64 then (.error .EndOfStream, s)
  else
    match cursorReadExact s 4 with
    | some (buffer, s1) =>
      (.ok (toI32 ((buffer.getD 0 0 <<< 0 ||| buffer.getD 1 0 <<< 8) ||| buffer.getD 2 0 <<< 16 ||| buffer.getD 3 0 <<< 24)), s1)
    | none => (.error .ReadFailure, s)

/-- `BufferReader::read_bytes`. -/
def read_bytes (count : Nat) (s : ByteStream) : Except BufferError (List Nat) × ByteStream :=
  bnd (position s) fun p s =>
  bnd (len s) fun l s =>
  if l < (p + count) % 2 ^ 64 then (.error .EndOfStream, s)
  else
    match cursorReadExact s count with
    | some (buffer, s1) => (.ok buffer, s1)
    | none => (.error .ReadFailure, s)

/-- `BufferReader::read_bytes_at`: bounds check `offset + count > len`
(wrapping `u64` addition), save the position, seek to `offset`, `read_bytes`,
seek back.  The `?` on the inner `read_bytes` returns early, skipping the
restoring seek. -/
def read_bytes_at (offset count : Nat) (s : ByteStream) : Except BufferError (List Nat) × ByteStream :=
  bnd (len s) fun l s =>
  if l < (offset + count) % 2 ^ 64 then (.error .EndOfStream, s)
  else
    bnd (position s) fun current_pos s =>
    bnd (seek (toI64 offset) .Begin s) fun _ s =>
    bnd (read_bytes count s) fun buffer s =>
    bnd (seek (toI64 current_pos) .Begin s) fun _ s =>
    (.ok buffer, s)

/-- The do-while loop of `BufferReader::read_7bit_int`.  `count` is the `i32`
accumulator as a 32-bit pattern; `shift` the current bit offset.  The guard
`shift == 5 * 7` fires before a 6th byte would be read.  `fuel` only bounds the
recursion: from the entry point (`fuel = 6`, `shift = 0`) the guard always
fires first, so the `fuel = 0` branch is unreachable (its value is chosen to
coincide with the guard's). -/
def read7bitLoop (fuel count shift : Nat) (s : ByteStream) : Except BufferError Nat × ByteStream :=
  if shift = 5 * 7 then (.error .IOFailure, s)
  else
    match fuel with
    | 0 => (.error .IOFailure, s)
    | fuel + 1 =>
      bnd (read_u8 s) fun b s =>
      let count1 := count ||| ((b &&& 0x7F) <<< shift) % 2 ^ 32
      if b &&& 0x80 ≠ 0 then read7bitLoop fuel count1 (shift + 7) s
      else (.ok count1, s)

/-- `BufferReader::read_7bit_int`: run the loop, interpret the accumulated
32-bit pattern as an `i32`. -/
def read_7bit_int (s : ByteStream) : Except BufferError Int × ByteStream :=
  bnd (read7bitLoop 6 0 0 s) fun pat s => (.ok (toI32 pat), s)

/-- UTF-8 validity of a byte sequence: the validation `String::from_utf8`
performs (the exact accepting ranges of the UTF-8 automaton, surrogates and
overlong forms excluded). -/
def utf8Valid : List Nat → Bool
  | [] => true
  | b :: rest =>
    if b < 0x80 then utf8Valid rest
    else if 0xC2 ≤ b ∧ b ≤ 0xDF then
      match rest with
      | c1 :: rest1 => (0x80 ≤ c1 && c1 ≤ 0xBF) && utf8Valid rest1
      | _ => false
    else if b = 0xE0 then
      match rest with
      | c1 :: c2 :: rest1 => (0xA0 ≤ c1 && c1 ≤ 0xBF) && ((0x80 ≤ c2 && c2 ≤ 0xBF) && utf8Valid rest1)
      | _ => false
    else if (0xE1 ≤ b ∧ b ≤ 0xEC) ∨ b = 0xEE ∨ b = 0xEF then
      match rest with
      | c1 :: c2 :: rest1 => (0x80 ≤ c1 && c1 ≤ 0xBF) && ((0x80 ≤ c2 && c2 ≤ 0xBF) && utf8Valid rest1)
      | _ => false
    else if b = 0xED then
      match rest with
      | c1 :: c2 :: rest1 => (0x80 ≤ c1 && c1 ≤ 0x9F) && ((0x80 ≤ c2 && c2 ≤ 0xBF) && utf8Valid rest1)
      | _ => false
    else if b = 0xF0 then
      match rest with
      | c1 :: c2 :: c3 :: rest1 =>
        (0x90 ≤ c1 && c1 ≤ 0xBF) && ((0x80 ≤ c2 && c2 ≤ 0xBF) && ((0x80 ≤ c3 && c3 ≤ 0xBF) && utf8Valid rest1))
      | _ => false
    else if 0xF1 ≤ b ∧ b ≤ 0xF3 then
      match rest with
      | c1 :: c2 :: c3 :: rest1 =>
        (0x80 ≤ c1 && c1 ≤ 0xBF) && ((0x80 ≤ c2 && c2 ≤ 0xBF) && ((0x80 ≤ c3 && c3 ≤ 0xBF) && utf8Valid rest1))
      | _ => false
    else if b = 0xF4 then
      match rest with
      | c1 :: c2 :: c3 :: rest1 =>
        (0x80 ≤ c1 && c1 ≤ 0x8F) && ((0x80 ≤ c2 && c2 ≤ 0xBF) && ((0x80 ≤ c3 && c3 ≤ 0xBF) && utf8Valid rest1))
      | _ => false
    else false

/-- `BufferReader::read_string`: varint length; negative length is corruption
(`IOFailure`); zero length is the empty string; otherwise read that many bytes
and validate them as UTF-8 (the result *is* those bytes, by the `String`
representation explained at the top of the file). -/
def read_string (s : ByteStream) : Except BufferError (List Nat) × ByteStream :=
  bnd (read_7bit_int s) fun string_length s =>
  if string_length < 0 then (.error .IOFailure, s)
  else if string_length = 0 then (.ok [], s)
  else
    bnd (read_bytes string_length.toNat s) fun chars s =>
    if utf8Valid chars then (.ok chars, s) else (.error .IOFailure, s)

end BufferReader

/-- The pure byte sequence produced by `write_7bit_int` for the `u32` value
`v` (the writer's loop, extracted; see `write7bitLoop_spec`). -/
def enc7 (v : Nat) : List Nat :=
  if h : 0x80 ≤ v then ((v ||| 0x80) % 256) :: enc7 (v >>> 7) else [v % 256]
termination_by v
decreasing_by
  simp only [Nat.shiftRight_eq_div_pow]
  omega

/-! ## Basic lemmas about the embedding -/

@[simp]
theorem bnd_ok {α β : Type} (a : α) (s : ByteStream)
    (f : α → ByteStream → Except BufferError β × ByteStream) : bnd (.ok a, s) f = f a s := rfl

@[simp]
theorem bnd_error {α β : Type} (e : BufferError) (s : ByteStream)
    (f : α → ByteStream → Except BufferError β × ByteStream) : bnd (.error e, s) f = (.error e, s) := rfl

theorem toU64_natCast (n : Nat) (h : n < 2 ^ 64) : toU64 (n : Int) = n := by
  simp only [toU64]
  omega

theorem toU64_toI64 (n : Nat) (h : n < 2 ^ 64) : toU64 (toI64 n) = n := by
  simp only [toU64, toI64]
  split <;> omega

theorem toU32_toI32 (n : Nat) : toU32 (toI32 n) = n % 2 ^ 32 := by
  simp only [toU32, toI32]
  split <;> omega

theorem toI32_toU32 (v : Int) (h1 : -2 ^ 31 ≤ v) (h2 : v < 2 ^ 31) : toI32 (toU32 v) = v := by
  simp only [toU32, toI32]
  split <;> omega

theorem toI32_of_lt (n : Nat) (h : n < 2 ^ 31) : toI32 (n : Nat) = (n : Int) := by
  simp only [toI32]
  split <;> omega

namespace BufferReader

theorem position_eq (s : ByteStream) (h : s.pos < 2 ^ 64) : position s = (.ok s.pos, s) := by
  simp only [position, seek, cursorSeek, checkedAddSigned, Nat.add_zero, if_pos h]

theorem len_eq (s : ByteStream) (h : s.pos < 2 ^ 64) (h2 : s.data.length < 2 ^ 64) :
    len s = (.ok s.data.length, s) := by
  rw [len, position_eq _ h, bnd_ok]
  simp only [seek, cursorSeek, checkedAddSigned, Nat.add_zero, if_pos h2, bnd_ok]
  by_cases hpl : s.pos = s.data.length
  · rw [if_neg (show ¬s.pos ≠ s.data.length by omega)]
    rw [← hpl]
  · rw [if_pos hpl]
    simp only [cursorSeek, toU64_toI64 s.pos h, bnd_ok]

theorem read_u8_eq (s : ByteStream) (h : s.pos < s.data.length) (h2 : s.data.length < 2 ^ 64) :
    read_u8 s = (.ok (s.data.getD s.pos 0), ⟨s.data, s.pos + 1⟩) := by
  rw [read_u8, position_eq _ (Nat.lt_trans h h2), bnd_ok, len_eq _ (Nat.lt_trans h h2) h2, bnd_ok]
  have hm : (s.pos + 1) % 2 ^ 64 = s.pos + 1 := Nat.mod_eq_of_lt (by omega)
  rw [hm, if_neg (show ¬s.data.length < s.pos + 1 by omega)]
  simp only [cursorReadExact, Nat.min_eq_left (Nat.le_of_lt h), hm,
    if_pos (show 1 ≤ s.data.length - s.pos by omega)]
  simp [List.getD_eq_getElem?_getD, List.getElem?_take_of_lt, List.getElem?_drop]

theorem read_bytes_eq (count : Nat) (s : ByteStream) (h : s.pos + count ≤ s.data.length)
    (h2 : s.data.length < 2 ^ 64) :
    read_bytes count s = (.ok ((s.data.drop s.pos).take count), ⟨s.data, s.pos + count⟩) := by
  rw [read_bytes, position_eq _ (by omega), bnd_ok, len_eq _ (by omega) h2, bnd_ok]
  have hm : (s.pos + count) % 2 ^ 64 = s.pos + count := Nat.mod_eq_of_lt (by omega)
  rw [hm, if_neg (show ¬s.data.length < s.pos + count by omega)]
  simp only [cursorReadExact, Nat.min_eq_left (show s.pos ≤ s.data.length by omega), hm,
    if_pos (show count ≤ s.data.length - s.pos by omega)]

theorem read_u8_eos (s : ByteStream) (h0 : s.pos ≤ s.data.length)
    (h2 : s.data.length + 1 < 2 ^ 64) (h : s.data.length < s.pos + 1) :
    read_u8 s = (.error .EndOfStream, s) := by
  rw [read_u8, position_eq _ (by omega), bnd_ok, len_eq _ (by omega) (by omega), bnd_ok]
  rw [Nat.mod_eq_of_lt (show s.pos + 1 < 2 ^ 64 by omega), if_pos h]

theorem read_u16_eos (s : ByteStream) (h0 : s.pos ≤ s.data.length)
    (h2 : s.data.length + 2 < 2 ^ 64) (h : s.data.length < s.pos + 2) :
    read_u16 s = (.error .EndOfStream, s) := by
  rw [read_u16, position_eq _ (by omega), bnd_ok, len_eq _ (by omega) (by omega), bnd_ok]
  rw [Nat.mod_eq_of_lt (show s.pos + 2 < 2 ^ 64 by omega), if_pos h]

theorem read_u32_eos (s : ByteStream) (h0 : s.pos ≤ s.data.length)
    (h2 : s.data.length + 4 < 2 ^ 64) (h : s.data.length < s.pos + 4) :
    read_u32 s = (.error .EndOfStream, s) := by
  rw [read_u32, position_eq _ (by omega), bnd_ok, len_eq _ (by omega) (by omega), bnd_ok]
  rw [Nat.mod_eq_of_lt (show s.pos + 4 < 2 ^ 64 by omega), if_pos h]

theorem read_u64_eos (s : ByteStream) (h0 : s.pos ≤ s.data.length)
    (h2 : s.data.length + 8 < 2 ^ 64) (h : s.data.length < s.pos + 8) :
    read_u64 s = (.error .EndOfStream, s) := by
  rw [read_u64, position_eq _ (by omega), bnd_ok, len_eq _ (by omega) (by omega), bnd_ok]
  rw [Nat.mod_eq_of_lt (show s.pos + 8 < 2 ^ 64 by omega), if_pos h]

theorem read_i32_eos (s : ByteStream) (h0 : s.pos ≤ s.data.length)
    (h2 : s.data.length + 4 < 2 ^ 64) (h : s.data.length < s.pos + 4) :
    read_i32 s = (.error .EndOfStream, s) := by
  rw [read_i32, position_eq _ (by omega), bnd_ok, len_eq _ (by omega) (by omega), bnd_ok]
  rw [Nat.mod_eq_of_lt (show s.pos + 4 < 2 ^ 64 by omega), if_pos h]

theorem read_bytes_eos (count : Nat) (s : ByteStream)
    (h2 : s.data.length < 2 ^ 64) (h3 : s.pos + count < 2 ^ 64)
    (h : s.data.length < s.pos + count) :
    read_bytes count s = (.error .EndOfStream, s) := by
  rw [read_bytes, position_eq _ (by omega), bnd_ok, len_eq _ (by omega) (by omega), bnd_ok]
  rw [Nat.mod_eq_of_lt h3, if_pos h]

theorem read_u32_ok_shape (s : ByteStream) (h : s.pos + 4 ≤ s.data.length)
    (h2 : s.data.length < 2 ^ 64) :
    ∃ w, read_u32 s = (.ok w, ⟨s.data, s.pos + 4⟩) := by
  rw [read_u32, position_eq _ (by omega), bnd_ok, len_eq _ (by omega) h2, bnd_ok]
  have hm : (s.pos + 4) % 2 ^ 64 = s.pos + 4 := Nat.mod_eq_of_lt (by omega)
  rw [hm, if_neg (show ¬s.data.length < s.pos + 4 by omega)]
  simp only [cursorReadExact, Nat.min_eq_left (show s.pos ≤ s.data.length by omega), hm,
    if_pos (show 4 ≤ s.data.length - s.pos by omega)]
  exact ⟨_, rfl⟩

end BufferReader

namespace BufferWriter

theorem cursorWrite_at_end (d bs : List Nat) (h : d.length + bs.length < 2 ^ 64) :
    cursorWrite ⟨d, d.length⟩ bs = ⟨d ++ bs, d.length + bs.length⟩ := by
  simp only [cursorWrite]
  rw [if_neg (show ¬d.length < d.length by omega)]
  rw [List.take_length, List.drop_eq_nil_of_le (by omega), List.append_nil,
    Nat.mod_eq_of_lt h]

theorem enc7_cont (v : Nat) (h : 0x80 ≤ v) :
    enc7 v = ((v ||| 0x80) % 256) :: enc7 (v >>> 7) := by
  rw [enc7]
  rw [dif_pos h]

theorem enc7_last (v : Nat) (h : ¬0x80 ≤ v) : enc7 v = [v % 256] := by
  rw [enc7]
  rw [dif_neg h]

theorem enc7_length_pos (v : Nat) : 1 ≤ (enc7 v).length := by
  by_cases h : 0x80 ≤ v
  · rw [enc7_cont v h]
    simp
  · rw [enc7_last v h]
    simp

theorem write7bitLoop_spec (v : Nat) : ∀ d : List Nat, d.length + (enc7 v).length < 2 ^ 64 →
    write7bitLoop v ⟨d, d.length⟩ = (.ok ⟨⟩, ⟨d ++ enc7 v, d.length + (enc7 v).length⟩) := by
  induction v using Nat.strong_induction_on with
  | _ v ih =>
    intro d h
    rw [write7bitLoop]
    by_cases hv : 0x80 ≤ v
    · rw [dif_pos hv]
      rw [enc7_cont v hv] at h ⊢
      simp only [List.length_cons] at h
      simp only [write_u8, bnd_ok, cursorWrite_at_end d [(v ||| 0x80) % 256] (by simp; omega)]
      have hstep : (⟨d ++ [(v ||| 0x80) % 256], d.length + [(v ||| 0x80) % 256].length⟩ : ByteStream)
          = ⟨d ++ [(v ||| 0x80) % 256], (d ++ [(v ||| 0x80) % 256]).length⟩ := by
        simp
      rw [hstep, ih (v >>> 7) (by simp only [Nat.shiftRight_eq_div_pow]; omega)
        (d ++ [(v ||| 0x80) % 256]) (by simp; omega)]
      have h1 : (d ++ [(v ||| 0x80) % 256]) ++ enc7 (v >>> 7)
          = d ++ (v ||| 0x80) % 256 :: enc7 (v >>> 7) := by simp
      have h2 : (d ++ [(v ||| 0x80) % 256]).length + (enc7 (v >>> 7)).length
          = d.length + ((enc7 (v >>> 7)).length + 1) := by simp; omega
      rw [h1, h2]
      simp
    · rw [dif_neg hv]
      rw [enc7_last v hv] at h ⊢
      simp only [List.length_singleton] at h
      simp only [write_u8, bnd_ok, cursorWrite_at_end d [v % 256] (by simp; omega)]

theorem write_7bit_int_spec (value : Int) (d : List Nat)
    (h : d.length + (enc7 (toU32 value)).length < 2 ^ 64) :
    write_7bit_int value ⟨d, d.length⟩
      = (.ok ⟨⟩, ⟨d ++ enc7 (toU32 value), d.length + (enc7 (toU32 value)).length⟩) := by
  rw [write_7bit_int]
  exact write7bitLoop_spec _ _ h

end BufferWriter

/-! ## Bitwise helper lemmas (for the 7-bit codec) -/

theorem lor_shift_add {a k : Nat} (c : Nat) (h : a < 2 ^ k) : a ||| c <<< k = a + c * 2 ^ k := by
  rw [Nat.lor_comm, Nat.shiftLeft_eq, Nat.mul_comm c (2 ^ k), ← Nat.mul_add_lt_is_or h c]
  ring

theorem and_127_eq_mod (b : Nat) : b &&& 0x7F = b % 128 := by
  have h := Nat.and_pow_two_sub_one_eq_mod b 7
  norm_num at h
  exact h

theorem lor_mod_two_pow (x y n : Nat) : (x ||| y) % 2 ^ n = x % 2 ^ n ||| y % 2 ^ n := by
  apply Nat.eq_of_testBit_eq
  intro i
  simp [Nat.testBit_mod_two_pow, Bool.and_or_distrib_left]

theorem contByte_and_128 (v : Nat) : ((v ||| 0x80) % 256) &&& 0x80 ≠ 0 := by
  have h1 : (v ||| 0x80).testBit 7 = true := by
    rw [Nat.testBit_or]
    have h0 : Nat.testBit 0x80 7 = true := by decide
    rw [h0, Bool.or_true]
  have h2 : ((v ||| 0x80) % 256).testBit 7 = true := by
    rw [show (256 : Nat) = 2 ^ 8 by norm_num, Nat.testBit_mod_two_pow]
    simp [h1]
  have h3 := Nat.and_two_pow ((v ||| 0x80) % 256) 7
  rw [h2] at h3
  norm_num at h3
  omega

theorem contByte_and_127 (v : Nat) : ((v ||| 0x80) % 256) &&& 0x7F = v % 128 := by
  rw [and_127_eq_mod]
  rw [show (256 : Nat) = 2 ^ 8 by norm_num, show (128 : Nat) = 2 ^ 7 by norm_num]
  rw [Nat.mod_mod_of_dvd _ (by norm_num)]
  rw [lor_mod_two_pow]
  norm_num

theorem lastByte_and_127 (v : Nat) (h : v < 0x80) : (v % 256) &&& 0x7F = v := by
  rw [Nat.mod_eq_of_lt (by omega), and_127_eq_mod, Nat.mod_eq_of_lt (by omega)]

theorem lastByte_and_128 (v : Nat) (h : v < 0x80) : (v % 256) &&& 0x80 = 0 := by
  rw [Nat.mod_eq_of_lt (by omega), show (0x80 : Nat) = 2 ^ 7 by norm_num, Nat.and_two_pow]
  rw [Nat.testBit_lt_two_pow (by omega)]
  norm_num

/-! ## Length bounds for the 7-bit encoding -/

theorem enc7_lt (v : Nat) : v < 2 ^ (7 * (enc7 v).length) := by
  induction v using Nat.strong_induction_on with
  | _ v ih =>
    by_cases hv : 0x80 ≤ v
    · rw [BufferWriter.enc7_cont v hv, List.length_cons]
      have hrec := ih (v >>> 7) (by simp only [Nat.shiftRight_eq_div_pow]; omega)
      have h128 : v >>> 7 = v / 128 := by
        rw [Nat.shiftRight_eq_div_pow]
      rw [h128] at hrec
      have hd : v < 2 ^ (7 * (enc7 (v / 128)).length) * 128 :=
        (Nat.div_lt_iff_lt_mul (show 0 < (128 : Nat) by norm_num)).mp hrec
      rw [h128, show 7 * ((enc7 (v / 128)).length + 1)
        = 7 * (enc7 (v / 128)).length + 7 by ring, pow_add]
      rw [show (2 : Nat) ^ 7 = 128 by norm_num]
      exact hd
    · rw [BufferWriter.enc7_last v hv]
      simp only [List.length_singleton]
      omega

theorem enc7_length_le (m : Nat) : ∀ v, 1 ≤ m → v < 2 ^ (7 * m) → (enc7 v).length ≤ m := by
  induction m with
  | zero => omega
  | succ m ih =>
    intro v _ hv
    by_cases hsmall : 0x80 ≤ v
    · rw [BufferWriter.enc7_cont v hsmall, List.length_cons]
      rcases Nat.eq_zero_or_pos m with hm | hm
      · subst hm
        norm_num at hv
        omega
      · have hrec : (enc7 (v >>> 7)).length ≤ m := by
          apply ih (v >>> 7) hm
          have h128 : v >>> 7 = v / 128 := by
            rw [Nat.shiftRight_eq_div_pow]
          rw [h128]
          apply Nat.div_lt_of_lt_mul
          rw [show 7 * (m + 1) = 7 * m + 7 by ring, pow_add] at hv
          norm_num at hv
          omega
        omega
    · rw [BufferWriter.enc7_last v hsmall]
      simp only [List.length_singleton]
      omega

/-! ## Decoding the 7-bit encoding -/

theorem getD_append_length (l1 l2 : List Nat) (b : Nat) :
    (l1 ++ b :: l2).getD l1.length 0 = b := by
  simp [List.getD_eq_getElem?_getD, List.getElem?_append_right (Nat.le_refl l1.length)]

namespace BufferReader

theorem read7bitLoop_enc7 :
    ∀ (fuel v count shift : Nat) (pre post : List Nat),
    (enc7 v).length ≤ fuel →
    shift + 7 * (enc7 v).length ≤ 35 →
    count < 2 ^ shift →
    v < 2 ^ (32 - shift) →
    pre.length + ((enc7 v).length + post.length) < 2 ^ 64 →
    read7bitLoop fuel count shift ⟨pre ++ (enc7 v ++ post), pre.length⟩
      = (.ok (count + v * 2 ^ shift),
         ⟨pre ++ (enc7 v ++ post), pre.length + (enc7 v).length⟩) := by
  intro fuel
  induction fuel with
  | zero =>
    intro v count shift pre post h1 _ _ _ _
    have := BufferWriter.enc7_length_pos v
    omega
  | succ f ih =>
    intro v count shift pre post h1 h2 h3 h4 h6
    have hlpos := BufferWriter.enc7_length_pos v
    have hshift : shift ≤ 28 := by omega
    rw [read7bitLoop]
    rw [if_neg (show ¬shift = 5 * 7 by omega)]
    by_cases hv : 0x80 ≤ v
    · -- continuation byte
      rw [BufferWriter.enc7_cont v hv] at h1 h2 h6 ⊢
      simp only [List.length_cons] at h1 h2 h6
      have hlpos2 := BufferWriter.enc7_length_pos (v >>> 7)
      have hshift2 : shift ≤ 21 := by omega
      have hdata : pre ++ (((v ||| 0x80) % 256) :: enc7 (v >>> 7) ++ post)
          = pre ++ ((v ||| 0x80) % 256) :: (enc7 (v >>> 7) ++ post) := by simp
      rw [hdata]
      have hread := read_u8_eq ⟨pre ++ (v ||| 0x80) % 256 :: (enc7 (v >>> 7) ++ post), pre.length⟩
        (by simp only [List.length_append, List.length_cons]; omega)
        (by simp only [List.length_append, List.length_cons]; omega)
      rw [hread]
      rw [getD_append_length]
      simp only [bnd_ok]
      rw [if_pos (contByte_and_128 v)]
      rw [contByte_and_127]
      -- the shifted group is below 2^32, so the i32 wrap is the identity
      have hgrp : (v % 128) <<< shift % 2 ^ 32 = (v % 128) <<< shift := by
        apply Nat.mod_eq_of_lt
        rw [Nat.shiftLeft_eq]
        calc (v % 128) * 2 ^ shift < 128 * 2 ^ shift :=
              (Nat.mul_lt_mul_right (Nat.two_pow_pos shift)).mpr (by omega)
          _ ≤ 128 * 2 ^ 21 := by
              have := Nat.pow_le_pow_right (show 1 ≤ 2 by decide) hshift2
              omega
          _ < 2 ^ 32 := by norm_num
      rw [hgrp, lor_shift_add _ h3]
      have hstream : (⟨pre ++ ((v ||| 0x80) % 256) :: (enc7 (v >>> 7) ++ post),
          pre.length + 1⟩ : ByteStream)
          = ⟨(pre ++ [(v ||| 0x80) % 256]) ++ (enc7 (v >>> 7) ++ post),
             (pre ++ [(v ||| 0x80) % 256]).length⟩ := by simp
      rw [hstream]
      have hv128 : v >>> 7 = v / 128 := by
        rw [Nat.shiftRight_eq_div_pow]
      have hrec := ih (v >>> 7) (count + v % 128 * 2 ^ shift) (shift + 7)
        (pre ++ [(v ||| 0x80) % 256]) post
        (by omega) (by omega)
        (by -- accumulated bits stay below 2^(shift+7)
          have hb : v % 128 * 2 ^ shift ≤ 127 * 2 ^ shift :=
            Nat.mul_le_mul_right _ (by omega)
          have hp : (2 : Nat) ^ (shift + 7) = 2 ^ shift * 128 := by
            rw [pow_add]
            norm_num
          omega)
        (by -- the remaining magnitude fits in the remaining bits
          rw [hv128]
          apply Nat.div_lt_of_lt_mul
          have he : 32 - shift = 7 + (32 - (shift + 7)) := by omega
          rw [he, pow_add] at h4
          norm_num at h4
          omega)
        (by simp; omega)
      rw [hrec]
      have hval : count + v % 128 * 2 ^ shift + v >>> 7 * 2 ^ (shift + 7)
          = count + v * 2 ^ shift := by
        rw [hv128]
        have hp : (2 : Nat) ^ (shift + 7) = 2 ^ shift * 128 := by
          rw [pow_add]
          norm_num
        rw [hp]
        have hsplit : v % 128 + 128 * (v / 128) = v := Nat.mod_add_div v 128
        conv_rhs => rw [← hsplit]
        ring
      rw [hval]
      have hlists : (pre ++ [(v ||| 0x80) % 256]) ++ (enc7 (v >>> 7) ++ post)
          = pre ++ ((v ||| 0x80) % 256) :: (enc7 (v >>> 7) ++ post) := by simp
      have hlen : (pre ++ [(v ||| 0x80) % 256]).length + (enc7 (v >>> 7)).length
          = pre.length + ((enc7 (v >>> 7)).length + 1) := by simp; omega
      rw [hlists, hlen]
      simp
    · -- final byte
      rw [BufferWriter.enc7_last v hv] at h2 h6 ⊢
      simp only [List.length_singleton] at h2 h6
      have hdata : pre ++ ([v % 256] ++ post) = pre ++ (v % 256) :: post := by simp
      rw [hdata]
      have hread := read_u8_eq ⟨pre ++ (v % 256) :: post, pre.length⟩
        (by simp only [List.length_append, List.length_cons]; omega)
        (by simp only [List.length_append, List.length_cons]; omega)
      rw [hread]
      rw [getD_append_length]
      simp only [bnd_ok]
      rw [if_neg (by rw [lastByte_and_128 v (by omega)]; omega)]
      rw [lastByte_and_127 v (by omega)]
      have hgrp : v <<< shift % 2 ^ 32 = v <<< shift := by
        apply Nat.mod_eq_of_lt
        rw [Nat.shiftLeft_eq]
        have he : (32 : Nat) = (32 - shift) + shift := by omega
        rw [he, pow_add]
        exact (Nat.mul_lt_mul_right (Nat.two_pow_pos shift)).mpr h4
      rw [hgrp, lor_shift_add _ h3]
      simp

theorem read_7bit_int_enc7 (v : Nat) (hv : v < 2 ^ 32) (pre post : List Nat)
    (h6 : pre.length + ((enc7 v).length + post.length) < 2 ^ 64) :
    read_7bit_int ⟨pre ++ (enc7 v ++ post), pre.length⟩
      = (.ok (toI32 v), ⟨pre ++ (enc7 v ++ post), pre.length + (enc7 v).length⟩) := by
  have hlen : (enc7 v).length ≤ 5 := by
    apply enc7_length_le 5 v (by omega)
    calc v < 2 ^ 32 := hv
      _ ≤ 2 ^ (7 * 5) := by norm_num
  rw [read_7bit_int]
  rw [read7bitLoop_enc7 6 v 0 0 pre post (by omega) (by omega) (by norm_num)
    (by simpa using hv) h6]
  simp

end BufferReader

theorem toU32_lt (v : Int) : toU32 v < 2 ^ 32 := by
  simp only [toU32]
  omega

theorem toU32_ge_of_neg (v : Int) (h1 : -2 ^ 31 ≤ v) (h2 : v < 0) : 2 ^ 31 ≤ toU32 v := by
  simp only [toU32]
  omega

namespace BufferWriter

theorem write_string_spec (bs : List Nat) (d : List Nat)
    (h : d.length + (enc7 (bs.length % 2 ^ 32)).length + bs.length < 2 ^ 64) :
    write_string bs ⟨d, d.length⟩ = (.ok bs.length,
      ⟨d ++ enc7 (bs.length % 2 ^ 32) ++ bs,
        d.length + ((enc7 (bs.length % 2 ^ 32)).length + bs.length)⟩) := by
  rw [write_string, write_7bit_int]
  have hcond : d.length + (enc7 (toU32 (toI32 bs.length))).length < 2 ^ 64 := by
    rw [toU32_toI32]
    omega
  rw [write7bitLoop_spec _ d hcond, bnd_ok]
  simp only [toU32_toI32]
  have hs : (⟨d ++ enc7 (bs.length % 2 ^ 32), d.length + (enc7 (bs.length % 2 ^ 32)).length⟩ : ByteStream)
      = ⟨d ++ enc7 (bs.length % 2 ^ 32), (d ++ enc7 (bs.length % 2 ^ 32)).length⟩ := by simp
  rw [hs, cursorWrite_at_end _ _ (by simp only [List.length_append]; omega)]
  have h2 : (d ++ enc7 (bs.length % 2 ^ 32)).length + bs.length
      = d.length + ((enc7 (bs.length % 2 ^ 32)).length + bs.length) := by
    simp only [List.length_append]
    omega
  rw [h2]

end BufferWriter

/-- Claim C3: for every unsigned 32-bit magnitude `v`, `write_7bit_int`
followed by `read_7bit_int` at the same position yields `v` (as the `i32`
whose unsigned pattern is `v`; `toU32 (toI32 v) = v` states that this
reinterpretation is the identity on the magnitude), the encoding appended
to the stream is `enc7 v`, which uses the minimum number of 7-bit groups
needed for `v`; and in particular encoding `300` produces exactly the two
bytes `0xAC, 0x02`, and decoding those two bytes yields `300`. -/
theorem buffer_claim3_varint_roundtrip :
    (∀ (v : Nat) (s : ByteStream), v < 2 ^ 32 → s.pos = s.data.length →
      s.data.length + 6 < 2 ^ 64 →
      (BufferWriter.write_7bit_int (toI32 v) s).2
          = ⟨s.data ++ enc7 v, s.data.length + (enc7 v).length⟩ ∧
      BufferReader.read_7bit_int ⟨s.data ++ enc7 v, s.data.length⟩
          = (.ok (toI32 v), ⟨s.data ++ enc7 v, s.data.length + (enc7 v).length⟩) ∧
      toU32 (toI32 v) = v ∧
      v < 2 ^ (7 * (enc7 v).length) ∧
      (∀ m, 1 ≤ m → v < 2 ^ (7 * m) → (enc7 v).length ≤ m)) ∧
    (BufferWriter.write_7bit_int 300 ⟨[], 0⟩).2 = ⟨[0xAC, 0x02], 2⟩ ∧
    BufferReader.read_7bit_int ⟨[0xAC, 0x02], 0⟩ = (.ok 300, ⟨[0xAC, 0x02], 2⟩) := by
  have h300 : enc7 300 = [0xAC, 0x02] := by
    rw [BufferWriter.enc7_cont 300 (by norm_num)]
    rw [BufferWriter.enc7_last (300 >>> 7) (by decide)]
    decide
  refine ⟨?_, ?_, ?_⟩
  · intro v s hv hp hb
    obtain ⟨d, p⟩ := s
    simp only at hp hb
    subst hp
    have e1 : toU32 (toI32 v) = v := by
      rw [toU32_toI32]
      omega
    have hlen : (enc7 v).length ≤ 5 := by
      apply enc7_length_le 5 v (by omega)
      calc v < 2 ^ 32 := hv
        _ ≤ 2 ^ (7 * 5) := by norm_num
    refine ⟨?_, ?_, e1, enc7_lt v, fun m hm hvm => enc7_length_le m v hm hvm⟩
    · rw [BufferWriter.write_7bit_int, e1, BufferWriter.write7bitLoop_spec _ _ (by omega)]
    · have hr := BufferReader.read_7bit_int_enc7 v hv d [] (by simp; omega)
      simpa using hr
  · have ht : toU32 (300 : Int) = 300 := by decide
    have hw := BufferWriter.write_7bit_int_spec 300 [] (by rw [ht, h300]; decide)
    rw [ht, h300] at hw
    simp only [List.length_nil, List.nil_append, List.length_cons, Nat.zero_add] at hw
    rw [hw]
  · have ht2 : toI32 (300 : Nat) = (300 : Int) := by decide
    have hr := BufferReader.read_7bit_int_enc7 300 (by norm_num) [] [] (by rw [h300]; decide)
    rw [h300, ht2] at hr
    simp only [List.nil_append, List.append_nil, List.length_nil, List.length_cons,
      Nat.zero_add] at hr
    exact hr

/-- Witness for C3: the universal part applied at `v = 300` over the empty
stream. -/
theorem buffer_claim3_witness :
    BufferReader.read_7bit_int ⟨([] : List Nat) ++ enc7 300, ([] : List Nat).length⟩
      = (.ok (toI32 300), ⟨([] : List Nat) ++ enc7 300,
          ([] : List Nat).length + (enc7 300).length⟩) :=
  ((buffer_claim3_varint_roundtrip.1 300 ⟨[], 0⟩ (by norm_num) rfl (by norm_num)).2).1

/-- Claim C10: for every signed 32-bit value `v`, including every negative
value, `write_7bit_int v` followed by `read_7bit_int` at the same position
yields `v` exactly; negative values, and all values whose unsigned bit
pattern is at least `2^28`, occupy exactly 5 bytes in the encoding. -/
theorem buffer_claim10_signed_varint :
    ∀ (v : Int) (s : ByteStream), -2 ^ 31 ≤ v → v < 2 ^ 31 →
      s.pos = s.data.length → s.data.length + 6 < 2 ^ 64 →
      BufferReader.read_7bit_int ⟨(BufferWriter.write_7bit_int v s).2.data, s.pos⟩
          = (.ok v, ⟨(BufferWriter.write_7bit_int v s).2.data,
              s.pos + (enc7 (toU32 v)).length⟩) ∧
      ((v < 0 ∨ 2 ^ 28 ≤ toU32 v) →
        (BufferWriter.write_7bit_int v s).2.data.length = s.data.length + 5) := by
  intro v s h1 h2 hp hb
  obtain ⟨d, p⟩ := s
  simp only at hp hb ⊢
  subst hp
  have hu : toU32 v < 2 ^ 32 := toU32_lt v
  have hlen : (enc7 (toU32 v)).length ≤ 5 := by
    apply enc7_length_le 5 (toU32 v) (by omega)
    calc toU32 v < 2 ^ 32 := hu
      _ ≤ 2 ^ (7 * 5) := by norm_num
  have hw := BufferWriter.write_7bit_int_spec v d (by omega)
  rw [hw]
  constructor
  · have hr := BufferReader.read_7bit_int_enc7 (toU32 v) hu d [] (by simp; omega)
    rw [toI32_toU32 v h1 h2] at hr
    simpa using hr
  · intro hbig
    have h28 : 2 ^ 28 ≤ toU32 v := by
      rcases hbig with hneg | hge
      · have := toU32_ge_of_neg v h1 hneg
        omega
      · exact hge
    have h5 : 5 ≤ (enc7 (toU32 v)).length := by
      by_contra hc
      push_neg at hc
      have hmono := Nat.pow_le_pow_right (show 1 ≤ 2 by decide)
        (show 7 * (enc7 (toU32 v)).length ≤ 28 by omega)
      have hlt := enc7_lt (toU32 v)
      omega
    simp
    omega

/-- Witness for C10: the round-trip applied at `v = -1` over the empty
stream. -/
theorem buffer_claim10_witness :
    BufferReader.read_7bit_int ⟨(BufferWriter.write_7bit_int (-1) ⟨[], 0⟩).2.data, 0⟩
      = (.ok (-1), ⟨(BufferWriter.write_7bit_int (-1) ⟨[], 0⟩).2.data,
          0 + (enc7 (toU32 (-1))).length⟩) :=
  (buffer_claim10_signed_varint (-1) ⟨[], 0⟩ (by norm_num) (by norm_num) rfl
    (by norm_num)).1

/-- Claim C8 (amended): for every UTF-8 string — represented by its byte list
`bs` with `utf8Valid bs` — **of byte length below `2^31`**, `read_string`
after `write_string` at the same position yields `bs` exactly, and the empty
string encodes as a single zero-valued length byte with no following payload
bytes.  (The claim as stated for *every* UTF-8 string fails: a string of
`2^31` bytes has its length truncated to a negative `i32` by
`bytes.len() as i32`, making `read_string` fail; see the counterexample.) -/
theorem buffer_claim8_string_roundtrip :
    (∀ (bs : List Nat) (s : ByteStream), BufferReader.utf8Valid bs = true →
      bs.length < 2 ^ 31 → s.pos = s.data.length →
      s.data.length + 6 + bs.length < 2 ^ 64 →
      BufferReader.read_string ⟨(BufferWriter.write_string bs s).2.data, s.pos⟩
        = (.ok bs, (BufferWriter.write_string bs s).2)) ∧
    (∀ s : ByteStream, s.pos = s.data.length → s.data.length + 1 < 2 ^ 64 →
      (BufferWriter.write_string [] s).2 = ⟨s.data ++ [0], s.data.length + 1⟩) := by
  have h0 : enc7 0 = [0] := by
    rw [BufferWriter.enc7_last 0 (by norm_num)]
  constructor
  · intro bs s hvalid hlen hp hb
    obtain ⟨d, p⟩ := s
    simp only at hp hb
    subst hp
    have hmod : bs.length % 2 ^ 32 = bs.length := Nat.mod_eq_of_lt (by omega)
    have hexlen : (enc7 bs.length).length ≤ 5 := by
      apply enc7_length_le 5 bs.length (by omega)
      calc bs.length < 2 ^ 31 := hlen
        _ ≤ 2 ^ (7 * 5) := by norm_num
    have hw := BufferWriter.write_string_spec bs d (by rw [hmod]; omega)
    rw [hmod] at hw
    have hD : (BufferWriter.write_string bs ⟨d, d.length⟩).2
        = ⟨d ++ enc7 bs.length ++ bs, d.length + ((enc7 bs.length).length + bs.length)⟩ := by
      rw [hw]
    rw [hD]
    show BufferReader.read_string ⟨d ++ enc7 bs.length ++ bs, d.length⟩
        = (.ok bs, ⟨d ++ enc7 bs.length ++ bs,
            d.length + ((enc7 bs.length).length + bs.length)⟩)
    rw [BufferReader.read_string]
    have hassoc : d ++ enc7 bs.length ++ bs = d ++ (enc7 bs.length ++ bs) := by simp
    rw [hassoc]
    rw [BufferReader.read_7bit_int_enc7 bs.length (by omega) d bs (by omega)]
    rw [bnd_ok]
    rw [toI32_of_lt bs.length hlen]
    rw [if_neg (show ¬((bs.length : Int) < 0) by omega)]
    by_cases hbs : bs.length = 0
    · have hnil : bs = [] := List.length_eq_zero.mp hbs
      subst hnil
      rw [if_pos (show ((List.length ([] : List Nat) : Nat) : Int) = 0 by decide)]
      simp
    · rw [if_neg (show ¬((bs.length : Int) = 0) by omega)]
      rw [show ((bs.length : Int)).toNat = bs.length from Int.toNat_ofNat bs.length]
      rw [BufferReader.read_bytes_eq bs.length _
        (by simp only [List.length_append]; omega)
        (by simp only [List.length_append]; omega)]
      have hdrop : (d ++ (enc7 bs.length ++ bs)).drop (d.length + (enc7 bs.length).length)
          = bs := by
        rw [show d ++ (enc7 bs.length ++ bs) = (d ++ enc7 bs.length) ++ bs by simp]
        rw [List.drop_left' (by simp)]
      rw [bnd_ok, hdrop, List.take_length]
      rw [if_pos hvalid]
      have hpos : d.length + (enc7 bs.length).length + bs.length
          = d.length + ((enc7 bs.length).length + bs.length) := by omega
      rw [hpos]
  · intro s hp hb
    obtain ⟨d, p⟩ := s
    simp only at hp hb
    subst hp
    have hw := BufferWriter.write_string_spec [] d
      (by simp only [List.length_nil, Nat.zero_mod, h0, List.length_singleton]; omega)
    simp only [List.length_nil, Nat.zero_mod, h0] at hw
    rw [hw]
    simp

/-- Witness for C8: the round-trip applied to the two-byte UTF-8 encoding of
a multi-byte code point (`é` = `0xC3 0xA9`) over the empty stream. -/
theorem buffer_claim8_witness :
    BufferReader.read_string ⟨(BufferWriter.write_string [0xC3, 0xA9] ⟨[], 0⟩).2.data, 0⟩
      = (.ok [0xC3, 0xA9], (BufferWriter.write_string [0xC3, 0xA9] ⟨[], 0⟩).2) := by
  exact buffer_claim8_string_roundtrip.1 [0xC3, 0xA9] ⟨[], 0⟩ (by decide) (by norm_num) rfl
    (by norm_num)

/-- Counterexample for C8 as stated: for the `2^31`-byte ASCII string of
`'a'`s, `write_string` succeeds (its length is cast to the negative `i32`
`-2^31`, whose unsigned pattern `2^31` is what the varint length prefix
records), but `read_string` of the written bytes fails with `IOFailure`
(negative decoded length) instead of returning the string. -/
theorem buffer_claim8_counterexample :
    BufferReader.read_string
        ⟨(BufferWriter.write_string (List.replicate (2 ^ 31) 97) ⟨[], 0⟩).2.data, 0⟩
      = (.error .IOFailure,
          ⟨[0x80, 0x80, 0x80, 0x80, 0x08] ++ List.replicate (2 ^ 31) 97, 5⟩) := by
  have henc : enc7 2147483648 = [0x80, 0x80, 0x80, 0x80, 0x08] := by
    rw [BufferWriter.enc7_cont 2147483648 (by norm_num)]
    rw [show (2147483648 : Nat) >>> 7 = 16777216 by decide]
    rw [BufferWriter.enc7_cont 16777216 (by norm_num)]
    rw [show (16777216 : Nat) >>> 7 = 131072 by decide]
    rw [BufferWriter.enc7_cont 131072 (by norm_num)]
    rw [show (131072 : Nat) >>> 7 = 1024 by decide]
    rw [BufferWriter.enc7_cont 1024 (by norm_num)]
    rw [show (1024 : Nat) >>> 7 = 8 by decide]
    rw [BufferWriter.enc7_last 8 (by norm_num)]
    decide
  have hlen : (List.replicate (2 ^ 31) (97 : Nat)).length = 2147483648 := by
    simp only [List.length_replicate]
    norm_num
  have hw := BufferWriter.write_string_spec (List.replicate (2 ^ 31) 97) []
    (by rw [hlen, show (2147483648 : Nat) % 2 ^ 32 = 2147483648 by norm_num, henc]
        simp only [List.length_nil, List.length_cons, List.length_replicate]
        norm_num)
  rw [hlen, show (2147483648 : Nat) % 2 ^ 32 = 2147483648 by norm_num, henc] at hw
  rw [show (⟨[], ([] : List Nat).length⟩ : ByteStream) = ⟨[], 0⟩ by simp] at hw
  simp only [List.nil_append] at hw
  have hDdata : (BufferWriter.write_string (List.replicate (2 ^ 31) 97) ⟨[], 0⟩).2.data
      = [0x80, 0x80, 0x80, 0x80, 0x08] ++ List.replicate (2 ^ 31) 97 := by
    rw [hw]
  rw [hDdata]
  have hsplit : ([0x80, 0x80, 0x80, 0x80, 0x08] : List Nat) ++ List.replicate (2 ^ 31) 97
      = [] ++ (enc7 2147483648 ++ List.replicate (2 ^ 31) 97) := by
    rw [henc]
    rfl
  rw [hsplit]
  rw [BufferReader.read_string]
  have hr := BufferReader.read_7bit_int_enc7 2147483648 (by norm_num) []
    (List.replicate (2 ^ 31) 97)
    (by rw [henc, hlen, show ([128, 128, 128, 128, 8] : List Nat).length = 5 from rfl,
          show ([] : List Nat).length = 0 from rfl]
        norm_num)
  rw [show ([] : List Nat).length = 0 from rfl] at hr
  rw [hr]
  rw [bnd_ok]
  rw [show toI32 2147483648 = -2147483648 by decide]
  rw [if_pos (show (-2147483648 : Int) < 0 by norm_num)]
  rw [henc, show ([128, 128, 128, 128, 8] : List Nat).length = 5 from rfl, Nat.zero_add]

/-- Claim C1 (failing input, u16): `write_u16 256` emits the little-endian
bytes `[0, 1]`, but `read_u16` reassembles `buffer[0] | buffer[1]` without
shifting the second byte left by 8 bits, so reading back at the same position
yields `1`, not `256`.  This contradicts `read_u16`'s own documentation
("using little-endian encoding") and the spec's round-trip property; the code
is the defect (flagged in the spec's §9). -/
theorem buffer_claim1_u16_bug :
    (BufferWriter.write_u16 256 ⟨[], 0⟩).2 = ⟨[0, 1], 2⟩ ∧
    BufferReader.read_u16 ⟨[0, 1], 0⟩ = (.ok 1, ⟨[0, 1], 2⟩) := by
  constructor
  · rfl
  · rfl

/-- Claim C2: every fixed-size or counted read (`read_u8`, `read_u16`,
`read_u32`, `read_u64`, `read_i32`, `read_bytes`) fails with `EndOfStream`
and leaves the stream (cursor position and data) exactly unchanged when fewer
than the required bytes remain between the position and the stream's end. -/
theorem buffer_claim2_eos :
    ∀ s : ByteStream, s.pos ≤ s.data.length → s.data.length + 8 < 2 ^ 64 →
      (s.data.length < s.pos + 1 → BufferReader.read_u8 s = (.error .EndOfStream, s)) ∧
      (s.data.length < s.pos + 2 → BufferReader.read_u16 s = (.error .EndOfStream, s)) ∧
      (s.data.length < s.pos + 4 → BufferReader.read_u32 s = (.error .EndOfStream, s)) ∧
      (s.data.length < s.pos + 8 → BufferReader.read_u64 s = (.error .EndOfStream, s)) ∧
      (s.data.length < s.pos + 4 → BufferReader.read_i32 s = (.error .EndOfStream, s)) ∧
      (∀ count, s.pos + count < 2 ^ 64 → s.data.length < s.pos + count →
        BufferReader.read_bytes count s = (.error .EndOfStream, s)) := by
  intro s h0 hb
  refine ⟨?_, ?_, ?_, ?_, ?_, ?_⟩
  · intro h
    exact BufferReader.read_u8_eos s h0 (by omega) h
  · intro h
    exact BufferReader.read_u16_eos s h0 (by omega) h
  · intro h
    exact BufferReader.read_u32_eos s h0 (by omega) h
  · intro h
    exact BufferReader.read_u64_eos s h0 (by omega) h
  · intro h
    exact BufferReader.read_i32_eos s h0 (by omega) h
  · intro count h1 h2
    exact BufferReader.read_bytes_eos count s (by omega) h1 h2

/-- Witness for C2: all six reads fail with `EndOfStream` on the empty stream,
leaving it unchanged. -/
theorem buffer_claim2_witness :
    BufferReader.read_u8 ⟨[], 0⟩ = (.error .EndOfStream, ⟨[], 0⟩) ∧
    BufferReader.read_u16 ⟨[], 0⟩ = (.error .EndOfStream, ⟨[], 0⟩) ∧
    BufferReader.read_u32 ⟨[], 0⟩ = (.error .EndOfStream, ⟨[], 0⟩) ∧
    BufferReader.read_u64 ⟨[], 0⟩ = (.error .EndOfStream, ⟨[], 0⟩) ∧
    BufferReader.read_i32 ⟨[], 0⟩ = (.error .EndOfStream, ⟨[], 0⟩) ∧
    BufferReader.read_bytes 3 ⟨[], 0⟩ = (.error .EndOfStream, ⟨[], 0⟩) := by
  have h := buffer_claim2_eos ⟨[], 0⟩ (by decide) (by decide)
  exact ⟨h.1 (by decide), h.2.1 (by decide), h.2.2.1 (by decide), h.2.2.2.1 (by decide),
    h.2.2.2.2.1 (by decide), h.2.2.2.2.2 3 (by decide) (by decide)⟩

namespace BufferReader

/-- If the next `k ≤ 5` bytes all carry the continuation bit while the guard
allows `k` more groups, the decode loop consumes exactly those `k` bytes and
then aborts with `IOFailure`. -/
theorem read7bitLoop_allcont :
    ∀ (k f count : Nat) (d : List Nat) (p : Nat),
    k ≤ 5 → k ≤ f → p + k ≤ d.length → d.length < 2 ^ 64 →
    (∀ i, i < k → (d.getD (p + i) 0) &&& 0x80 ≠ 0) →
    read7bitLoop f count (35 - 7 * k) ⟨d, p⟩ = (.error .IOFailure, ⟨d, p + k⟩) := by
  intro k
  induction k with
  | zero =>
    intro f count d p _ _ _ _ _
    rw [read7bitLoop.eq_def]
    rw [if_pos (by norm_num)]
    cases f <;> simp
  | succ k ih =>
    intro f count d p hk5 hkf hpk hlen hcont
    obtain ⟨f, rfl⟩ : ∃ g, f = g + 1 := ⟨f - 1, by omega⟩
    rw [read7bitLoop]
    rw [if_neg (show ¬35 - 7 * (k + 1) = 5 * 7 by omega)]
    have hread := read_u8_eq ⟨d, p⟩ (show p < d.length by omega) (show d.length < 2 ^ 64 by omega)
    rw [hread]
    simp only [bnd_ok]
    have h0 := hcont 0 (by omega)
    rw [Nat.add_zero] at h0
    rw [if_pos h0]
    rw [show 35 - 7 * (k + 1) + 7 = 35 - 7 * k by omega]
    rw [ih f _ d (p + 1) (by omega) (by omega) (by omega) hlen
      (fun i hi => by
        have hc := hcont (i + 1) (by omega)
        rwa [show p + (i + 1) = p + 1 + i by omega] at hc)]
    rw [show p + 1 + k = p + (k + 1) by omega]

end BufferReader

/-- Claim C4: `read_7bit_int` reads at most 5 bytes: on any stream whose next
five bytes all have the continuation (high) bit set, decoding fails with
`IOFailure` after consuming exactly those 5 bytes (the cursor ends at
`pos + 5`), before a sixth byte is read. -/
theorem buffer_claim4_varint_guard :
    ∀ s : ByteStream, s.pos + 5 ≤ s.data.length → s.data.length < 2 ^ 64 →
      (∀ i, i < 5 → (s.data.getD (s.pos + i) 0) &&& 0x80 ≠ 0) →
      BufferReader.read_7bit_int s = (.error .IOFailure, ⟨s.data, s.pos + 5⟩) := by
  intro s h5 hb hcont
  obtain ⟨d, p⟩ := s
  simp only at h5 hb hcont ⊢
  rw [BufferReader.read_7bit_int]
  have h := BufferReader.read7bitLoop_allcont 5 6 0 d p (by norm_num) (by norm_num)
    (by omega) hb hcont
  rw [show (35 : Nat) - 7 * 5 = 0 by norm_num] at h
  rw [h]
  rw [bnd_error]

/-- Witness for C4: five continuation bytes `0x80..0x84` followed by a valid
terminator; the decoder aborts with `IOFailure` at position 5 without touching
the sixth byte. -/
theorem buffer_claim4_witness :
    BufferReader.read_7bit_int ⟨[0x80, 0x81, 0x82, 0x83, 0x84, 0x01], 0⟩
      = (.error .IOFailure, ⟨[0x80, 0x81, 0x82, 0x83, 0x84, 0x01], 5⟩) := by
  exact buffer_claim4_varint_guard ⟨[0x80, 0x81, 0x82, 0x83, 0x84, 0x01], 0⟩
    (by decide) (by decide) (by decide)

/-- Counterexample for claim C5: a negative absolute seek does **not** fail.
`seek(-1, Begin)` translates to `SeekFrom::Start((-1i64) as u64)`: the
negative offset wraps to `2^64 - 1` and the cursor seek (which accepts any
start position) succeeds, returning the wrapped position instead of
`IndexOutOfRange`. -/
theorem buffer_claim5_counterexample :
    BufferWriter.seek (-1) .Begin ⟨[], 0⟩
      = (.ok 18446744073709551615, ⟨[], 18446744073709551615⟩) := by
  rfl

/-- Claim C5 (amended): `seek(offset, Begin)` **always** succeeds, at the
absolute position `offset as u64` (so a negative offset wraps rather than
failing); only `Current`- and `End`-relative seeks whose checked signed
addition leaves `u64` range fail, and those do fail with `IndexOutOfRange`
carrying the requested signed offset, for both the writer and the reader. -/
theorem buffer_claim5_amended :
    ∀ (s : ByteStream) (off : Int),
      (BufferWriter.seek off .Begin s = (.ok (toU64 off), ⟨s.data, toU64 off⟩) ∧
       BufferReader.seek off .Begin s = (.ok (toU64 off), ⟨s.data, toU64 off⟩)) ∧
      (s.pos < 2 ^ 64 → off + s.pos < 0 ∨ 2 ^ 64 ≤ off + s.pos →
        BufferWriter.seek off .Current s = (.error (.IndexOutOfRange off), s) ∧
        BufferReader.seek off .Current s = (.error (.IndexOutOfRange off), s)) ∧
      (s.data.length < 2 ^ 64 → off + s.data.length < 0 ∨ 2 ^ 64 ≤ off + s.data.length →
        BufferWriter.seek off .End s = (.error (.IndexOutOfRange off), s) ∧
        BufferReader.seek off .End s = (.error (.IndexOutOfRange off), s)) := by
  intro s off
  refine ⟨⟨rfl, rfl⟩, ?_, ?_⟩
  · intro hp h
    have hnone : checkedAddSigned s.pos off = none := by
      cases off with
      | ofNat k =>
        rw [Int.ofNat_eq_natCast] at h
        simp only [checkedAddSigned]
        rw [if_neg (show ¬ s.pos + k < 2 ^ 64 by omega)]
      | negSucc k =>
        rw [Int.negSucc_eq] at h
        simp only [checkedAddSigned]
        rw [if_neg (show ¬ k + 1 ≤ s.pos by omega)]
    constructor
    · simp only [BufferWriter.seek, cursorSeek, hnone]
    · simp only [BufferReader.seek, cursorSeek, hnone]
  · intro hl h
    have hnone : checkedAddSigned s.data.length off = none := by
      cases off with
      | ofNat k =>
        rw [Int.ofNat_eq_natCast] at h
        simp only [checkedAddSigned]
        rw [if_neg (show ¬ s.data.length + k < 2 ^ 64 by omega)]
      | negSucc k =>
        rw [Int.negSucc_eq] at h
        simp only [checkedAddSigned]
        rw [if_neg (show ¬ k + 1 ≤ s.data.length by omega)]
    constructor
    · simp only [BufferWriter.seek, cursorSeek, hnone]
    · simp only [BufferReader.seek, cursorSeek, hnone]

/-- Witness for C5 (amended): on a two-byte stream at position 0, a
`Current`-relative seek by `-5` fails with `IndexOutOfRange(-5)` and leaves
the stream unchanged, and `seek(-1, Begin)` succeeds at `2^64 - 1`. -/
theorem buffer_claim5_witness :
    BufferWriter.seek (-5) .Current ⟨[1, 2], 0⟩
      = (.error (.IndexOutOfRange (-5)), ⟨[1, 2], 0⟩) ∧
    BufferReader.seek (-1) .Begin ⟨[1, 2], 0⟩
      = (.ok 18446744073709551615, ⟨[1, 2], 18446744073709551615⟩) := by
  refine ⟨((buffer_claim5_amended ⟨[1, 2], 0⟩ (-5)).2.1 (by decide)
    (Or.inl (by decide))).1, ?_⟩
  have h := ((buffer_claim5_amended ⟨[1, 2], 0⟩ (-1)).1).2
  exact h

/-- Counterexample for claim C6: a `Begin` seek past the end of the stream is
**not** rejected: on an empty reader, `seek(5, Begin)` succeeds and leaves the
cursor at position 5, beyond the length 0. -/
theorem buffer_claim6_counterexample :
    BufferReader.seek 5 .Begin ⟨[], 0⟩ = (.ok 5, ⟨[], 5⟩) := by
  rfl

/-- Claim C6 (amended): a `Begin` seek to any position below `2^64` succeeds,
including positions beyond the end of the stream, so the cursor is **not**
kept within `[0, length]` by seeks.  The read and write operations themselves
do preserve `pos ≤ length`: a counted read from a position within bounds
leaves the cursor within bounds whether it succeeds or fails, as does
`read_u32`, and a cursor write from a position within bounds lands within the
(possibly grown) bounds. -/
theorem buffer_claim6_amended :
    (∀ (s : ByteStream) (n : Nat), n < 2 ^ 64 →
      BufferReader.seek (n : Int) .Begin s = (.ok n, ⟨s.data, n⟩)) ∧
    (∀ (s : ByteStream) (count : Nat), s.pos ≤ s.data.length →
      s.data.length < 2 ^ 64 → s.pos + count < 2 ^ 64 →
      (BufferReader.read_bytes count s).2.pos ≤ (BufferReader.read_bytes count s).2.data.length) ∧
    (∀ s : ByteStream, s.pos ≤ s.data.length → s.data.length + 4 < 2 ^ 64 →
      (BufferReader.read_u32 s).2.pos ≤ (BufferReader.read_u32 s).2.data.length) ∧
    (∀ (s : ByteStream) (bs : List Nat), s.pos ≤ s.data.length →
      s.pos + bs.length < 2 ^ 64 →
      (cursorWrite s bs).pos ≤ (cursorWrite s bs).data.length) := by
  refine ⟨?_, ?_, ?_, ?_⟩
  · intro s n hn
    simp only [BufferReader.seek, cursorSeek, toU64_natCast n hn]
  · intro s count h0 hl hc
    by_cases h : s.data.length < s.pos + count
    · rw [BufferReader.read_bytes_eos count s hl hc h]
      exact h0
    · rw [BufferReader.read_bytes_eq count s (by omega) hl]
      simp only
      omega
  · intro s h0 hl
    by_cases h : s.data.length < s.pos + 4
    · rw [BufferReader.read_u32_eos s h0 (by omega) h]
      exact h0
    · obtain ⟨w, hw⟩ := BufferReader.read_u32_ok_shape s (by omega) (by omega)
      rw [hw]
      simp only
      omega
  · intro s bs h0 hb
    simp only [cursorWrite]
    rw [if_neg (show ¬ s.data.length < s.pos by omega)]
    simp only [List.length_append, List.length_take, List.length_drop]
    rw [Nat.mod_eq_of_lt hb]
    omega

/-- Witness for C6 (amended): a past-the-end `Begin` seek succeeds on a
one-byte stream; a two-byte counted read, a `read_u32`, and a two-byte write
each leave the cursor within the stream's bounds on concrete streams. -/
theorem buffer_claim6_witness :
    BufferReader.seek (3 : Int) .Begin ⟨[9], 0⟩ = (.ok 3, ⟨[9], 3⟩) ∧
    (BufferReader.read_bytes 2 ⟨[7, 8], 0⟩).2.pos
      ≤ (BufferReader.read_bytes 2 ⟨[7, 8], 0⟩).2.data.length ∧
    (BufferReader.read_u32 ⟨[1, 2, 3, 4, 5], 1⟩).2.pos
      ≤ (BufferReader.read_u32 ⟨[1, 2, 3, 4, 5], 1⟩).2.data.length ∧
    (cursorWrite ⟨[1], 1⟩ [5, 6]).pos ≤ (cursorWrite ⟨[1], 1⟩ [5, 6]).data.length := by
  exact ⟨buffer_claim6_amended.1 ⟨[9], 0⟩ 3 (by decide),
    buffer_claim6_amended.2.1 ⟨[7, 8], 0⟩ 2 (by decide) (by decide) (by decide),
    buffer_claim6_amended.2.2.1 ⟨[1, 2, 3, 4, 5], 1⟩ (by decide) (by decide),
    buffer_claim6_amended.2.2.2 ⟨[1], 1⟩ [5, 6] (by decide) (by decide)⟩

/-- Counterexample for claim C7: `read_bytes_at` does **not** always restore
the cursor.  With `offset = 2^64 - 1` and `count = 2` on a one-byte stream at
position 0, the bounds check passes because `offset + count` wraps to 1 in
`u64`; the inner `read_bytes` then fails, and the `?` operator returns early,
skipping the restoring seek: the call returns `ReadFailure` with the cursor
left at `2^64 - 1`, not at the original position 0. -/
theorem buffer_claim7_counterexample :
    BufferReader.read_bytes_at (2 ^ 64 - 1) 2 ⟨[42], 0⟩
      = (.error .ReadFailure, ⟨[42], 2 ^ 64 - 1⟩) ∧
    (BufferReader.read_bytes_at (2 ^ 64 - 1) 2 ⟨[42], 0⟩).2.pos ≠ 0 := by
  exact ⟨rfl, by decide⟩

/-- Claim C7 (amended): as long as `offset + count` does not overflow `u64`
(so the early-return path above is not taken) and the stream is well formed
(`pos ≤ length < 2^64`), `read_bytes_at` leaves the entire stream — in
particular `position()` — exactly as it was before the call, whether it
returns bytes or fails with `EndOfStream`. -/
theorem buffer_claim7_amended :
    ∀ (s : ByteStream) (offset count : Nat), s.pos ≤ s.data.length →
      s.data.length < 2 ^ 64 → offset + count < 2 ^ 64 →
      (BufferReader.read_bytes_at offset count s).2 = s := by
  intro s offset count h0 hl hoc
  rw [BufferReader.read_bytes_at, BufferReader.len_eq s (by omega) hl, bnd_ok,
    Nat.mod_eq_of_lt hoc]
  by_cases hb : s.data.length < offset + count
  · rw [if_pos hb]
  · rw [if_neg hb]
    rw [BufferReader.position_eq s (by omega), bnd_ok]
    simp only [BufferReader.seek, cursorSeek, toU64_toI64 offset (by omega), bnd_ok]
    rw [BufferReader.read_bytes_eq count ⟨s.data, offset⟩
      (show offset + count ≤ s.data.length by omega)
      (show s.data.length < 2 ^ 64 by omega)]
    simp only [bnd_ok]
    simp only [BufferReader.seek, cursorSeek, toU64_toI64 s.pos (by omega), bnd_ok]

/-- Witness for C7 (amended): reading two bytes at offset 0 of a two-byte
stream whose cursor sits at position 1 returns with the cursor still at 1. -/
theorem buffer_claim7_witness :
    (BufferReader.read_bytes_at 0 2 ⟨[7, 8], 1⟩).2 = ⟨[7, 8], 1⟩ := by
  exact buffer_claim7_amended ⟨[7, 8], 1⟩ 0 2 (by decide) (by decide) (by decide)

/-- Claim C9: starting from an empty writer, `write_u32 9001`, `write_u32
9002`, `write_string "Hello World!"`, `seek 0 Begin`, `write_u32 9003`, then
`to_vec` yields exactly the bytes `2B 23 00 00 2A 23 00 00 0C "Hello World!"`
(the first four overwritten by 9003), and a fresh reader over those bytes
returns 9003 from `read_u32`, then 9002 from `read_u32`, then the UTF-8 bytes
of `"Hello World!"` from `read_string`, in that order. -/
theorem buffer_claim9_scenario :
    (bnd (BufferWriter.write_u32 9001 ⟨[], 0⟩) fun _ s =>
     bnd (BufferWriter.write_u32 9002 s) fun _ s =>
     bnd (BufferWriter.write_string [72, 101, 108, 108, 111, 32, 87, 111, 114, 108, 100, 33] s) fun _ s =>
     bnd (BufferWriter.seek 0 .Begin s) fun _ s =>
     bnd (BufferWriter.write_u32 9003 s) fun _ s =>
     BufferWriter.to_vec s)
      = (.ok [43, 35, 0, 0, 42, 35, 0, 0, 12, 72, 101, 108, 108, 111, 32, 87, 111, 114, 108, 100, 33],
         ⟨[43, 35, 0, 0, 42, 35, 0, 0, 12, 72, 101, 108, 108, 111, 32, 87, 111, 114, 108, 100, 33], 21⟩) ∧
    (bnd (BufferReader.read_u32 ⟨[43, 35, 0, 0, 42, 35, 0, 0, 12, 72, 101, 108, 108, 111, 32, 87, 111, 114, 108, 100, 33], 0⟩) fun a s =>
     bnd (BufferReader.read_u32 s) fun b s =>
     bnd (BufferReader.read_string s) fun c s =>
     (.ok (a, b, c), s))
      = (.ok (9003, 9002, [72, 101, 108, 108, 111, 32, 87, 111, 114, 108, 100, 33]),
         ⟨[43, 35, 0, 0, 42, 35, 0, 0, 12, 72, 101, 108, 108, 111, 32, 87, 111, 114, 108, 100, 33], 21⟩) := by
  constructor
  · have henc : enc7 12 = [12] := by
      rw [BufferWriter.enc7_last 12 (by norm_num)]
    have hws : BufferWriter.write_string [72, 101, 108, 108, 111, 32, 87, 111, 114, 108, 100, 33]
        ⟨[41, 35, 0, 0, 42, 35, 0, 0], 8⟩
        = (.ok 12, ⟨[41, 35, 0, 0, 42, 35, 0, 0, 12, 72, 101, 108, 108, 111, 32, 87, 111, 114, 108, 100, 33], 21⟩) := by
      have hw := BufferWriter.write_string_spec
        [72, 101, 108, 108, 111, 32, 87, 111, 114, 108, 100, 33]
        [41, 35, 0, 0, 42, 35, 0, 0]
        (by rw [show (List.length [72, 101, 108, 108, 111, 32, 87, 111, 114, 108, 100, 33]) % 2 ^ 32 = 12 from rfl, henc]
            norm_num)
      rw [show (List.length [72, 101, 108, 108, 111, 32, 87, 111, 114, 108, 100, 33]) % 2 ^ 32 = 12 from rfl, henc] at hw
      exact hw
    rw [show BufferWriter.write_u32 9001 ⟨[], 0⟩ = (.ok 4, ⟨[41, 35, 0, 0], 4⟩) from rfl, bnd_ok,
      show BufferWriter.write_u32 9002 ⟨[41, 35, 0, 0], 4⟩
        = (.ok 4, ⟨[41, 35, 0, 0, 42, 35, 0, 0], 8⟩) from rfl, bnd_ok,
      hws, bnd_ok]
    rfl
  · rfl

end BufferLib
